import Mathlib

/-!
A verification development for `httpserver` (emkeyen/go_server_test_api)

A shallow embedding of `src/httpserver/server.go` and of the seeding done in
`src/main.go`.

* The package-level variables `Users` and `NextID` become the fields of `Store`;
  every handler is a function from the store before the request to the store
  after it, paired with the response it writes.  A handler holds `Mu` from its
  first access to the variables to its last, so a handler is one atomic step.
* Go's `int` is taken at its 64-bit width: values are integers between `minInt`
  and `maxInt`, and `NextID++` wraps around (`wrapInt`).
* `json.NewDecoder(r.Body).Decode(&user)` and `json.NewEncoder(w).Encode(user)`
  are library code: a request carries the outcome of decoding its body, a
  response carries the record that is encoded.
* `strconv.Atoi` and `strconv.Itoa` are library code, modelled on character
  lists after their documented behaviour.
-/

namespace httpserver

/-! ## Go's `int` -/

/-- Largest value of Go's `int` on a 64-bit target. -/
def maxInt : Int := 2 ^ 63 - 1

/-- Smallest value of Go's `int` on a 64-bit target. -/
def minInt : Int := -(2 ^ 63)

/-- The integers that are values of Go's `int`. -/
def IsInt (n : Int) : Prop := minInt ≤ n ∧ n ≤ maxInt

instance (n : Int) : Decidable (IsInt n) := by
  unfold IsInt
  exact inferInstance

/-- Two's-complement wrap-around of an integer result into the range of `int`. -/
def wrapInt (x : Int) : Int := (x + 2 ^ 63) % 2 ^ 64 - 2 ^ 63

/-! ## Data model -/

/-- The Go struct `User`. -/
structure User where
  ID : Int
  Name : String
deriving DecidableEq

/-- The package-level state: the map `Users` (a key is present when the lookup is
`some`) and the counter `NextID`. -/
structure Store where
  Users : Int → Option User
  NextID : Int

/-- The map assignment `m[k] = u`. -/
def mapSet (m : Int → Option User) (k : Int) (u : User) : Int → Option User :=
  fun j => if j = k then some u else m j

/-- The builtin `delete(m, k)`. -/
def mapDelete (m : Int → Option User) (k : Int) : Int → Option User :=
  fun j => if j = k then none else m j

/-- What a handler reads of an `*http.Request`: the method, the URL path, the
decoded query parameters in order, and the outcome of decoding the body as a
`User` (`none` when `Decode` returns an error). -/
structure Request where
  method : String
  path : String
  query : List (String × String)
  body : Option User

/-- What a handler writes as body: the message of an `http.Error` call, the
record passed to `Encode` (with content type `application/json`), or nothing. -/
inductive Body where
  | text (msg : String)
  | json (user : User)
  | empty
deriving DecidableEq

/-- Status code and body of the response. -/
structure Response where
  status : Nat
  body : Body
deriving DecidableEq

/-- The call `http.Error(w, msg, code)`. -/
def httpError (msg : String) (code : Nat) : Response := ⟨code, Body.text msg⟩

/-- The call `r.URL.Query().Get(key)`: the first value given for `key`, or the
empty string when there is none. -/
def queryGet (q : List (String × String)) (key : String) : String :=
  match q.find? (fun p => p.1 = key) with
  | some p => p.2
  | none => ""

/-! ## `strconv` -/

/-- Reads a run of decimal digits, most significant first, onto `acc`; fails on
any other character. -/
def parseDigits : Nat → List Char → Option Nat
  | acc, [] => some acc
  | acc, c :: cs =>
    if c.isDigit then parseDigits (acc * 10 + (c.toNat - 48)) cs else none

/-- Splits an optional leading sign off a character list. -/
def splitSign : List Char → Bool × List Char
  | '-' :: cs => (true, cs)
  | '+' :: cs => (false, cs)
  | cs => (false, cs)

/-- The function `strconv.Atoi`: an optional sign followed by at least one
decimal digit and nothing else, with a value in the range of `int`; `none`
stands for a returned error. -/
def Atoi (s : String) : Option Int :=
  match splitSign s.data with
  | (_, []) => none
  | (neg, ds) =>
    match parseDigits 0 ds with
    | none => none
    | some n =>
      let v : Int := if neg then -(n : Int) else (n : Int)
      if minInt ≤ v ∧ v ≤ maxInt then some v else none

/-- The decimal digit `d` as a character. -/
def digitChar (d : Nat) : Char := Char.ofNat (48 + d)

/-- Decimal digits of `n`, most significant first, pushed in front of `acc`. -/
def natDigits : Nat → Nat → List Char → List Char
  | 0, _, acc => acc
  | fuel + 1, n, acc =>
    let acc1 := digitChar (n % 10) :: acc
    if n / 10 = 0 then acc1 else natDigits fuel (n / 10) acc1

/-- The function `strconv.Itoa`: a minus sign for a negative number, then the
decimal digits of the absolute value. -/
def Itoa (i : Int) : String :=
  if i < 0 then ⟨'-' :: natDigits (i.natAbs + 1) i.natAbs []⟩
  else ⟨natDigits (i.natAbs + 1) i.natAbs []⟩

/-! ## The handlers of `server.go` -/

def handleGetUser (s : Store) (r : Request) : Store × Response :=
  let idStr := queryGet r.query "id"
  if idStr = "" then (s, httpError "Missing user ID" 400)
  else
    match Atoi idStr with
    | none => (s, httpError "Invalid user ID" 400)
    | some id =>
      match s.Users id with
      | none => (s, httpError "User not found" 404)
      | some user => (s, ⟨200, Body.json user⟩)

def handleCreateUser (s : Store) (r : Request) : Store × Response :=
  match r.body with
  | none => (s, httpError "Invalid user data" 400)
  | some user =>
    if user.Name = "" then (s, httpError "Name is required" 400)
    else
      let user1 : User := if user.ID = 0 then { user with ID := s.NextID } else user
      let s1 : Store :=
        if user.ID = 0 then { s with NextID := wrapInt (s.NextID + 1) } else s
      match s1.Users user1.ID with
      | some _ => (s1, httpError "User already exists" 409)
      | none => ({ s1 with Users := mapSet s1.Users user1.ID user1 }, ⟨201, Body.json user1⟩)

def handleUpdateUser (s : Store) (r : Request) : Store × Response :=
  match r.body with
  | none => (s, httpError "Invalid user data" 400)
  | some user =>
    match s.Users user.ID with
    | none => (s, httpError "User not found" 404)
    | some _ => ({ s with Users := mapSet s.Users user.ID user }, ⟨200, Body.json user⟩)

def handleDeleteUser (s : Store) (r : Request) : Store × Response :=
  let idStr := queryGet r.query "id"
  if idStr = "" then (s, httpError "Missing user ID" 400)
  else
    match Atoi idStr with
    | none => (s, httpError "Invalid user ID" 400)
    | some id =>
      match s.Users id with
      | none => (s, httpError "User not found :<" 404)
      | some _ => ({ s with Users := mapDelete s.Users id }, ⟨204, Body.empty⟩)

def UserHandler (s : Store) (r : Request) : Store × Response :=
  if r.method = "GET" then handleGetUser s r
  else if r.method = "POST" then handleCreateUser s r
  else if r.method = "PATCH" then handleUpdateUser s r
  else if r.method = "DELETE" then handleDeleteUser s r
  else (s, httpError "Method not allowed" 405)

/-- The store as `main` seeds it: `Users[1] = User{1, "Test User1"}`, `NextID = 2`. -/
def seededStore : Store :=
  { Users := mapSet (fun _ => none) 1 ⟨1, "Test User1"⟩, NextID := 2 }

/-- The store as the package initialises it: an empty map and `NextID = 1`. -/
def freshStore : Store := { Users := fun _ => none, NextID := 1 }

/-! ## Runs of requests and what is observed along them -/

/-- The store after the requests have been served one after another. -/
def serve : Store → List Request → Store
  | s, [] => s
  | s, r :: rs => serve (UserHandler s r).1 rs

/-- The request reaches the statement `NextID++` of `handleCreateUser`: a `POST`
whose body decodes to a record with a non-empty name and `ID` 0. -/
def reachesIncrement (r : Request) : Bool :=
  match r.body with
  | some u => decide (r.method = "POST" ∧ u.Name ≠ "" ∧ u.ID = 0)
  | none => false

/-- No `NextID++` executed while serving the requests overflows: each time the
statement is reached, `NextID + 1` is still a value of `int`. -/
def overflowFree : Store → List Request → Bool
  | _, [] => true
  | s, r :: rs =>
    (!reachesIncrement r || decide (IsInt (s.NextID + 1))) && overflowFree (UserHandler s r).1 rs

/-- The id handed out by the request when it is a successful auto-assign create:
a `POST` whose body has `ID` 0 and that is answered 201 with a record. -/
def autoAssignedBy (s : Store) (r : Request) : Option Int :=
  match r.body with
  | some u =>
    if r.method = "POST" ∧ u.ID = 0 ∧ (UserHandler s r).2.status = 201 then
      match (UserHandler s r).2.body with
      | Body.json v => some v.ID
      | _ => none
    else none
  | none => none

/-- The ids handed out by the successful auto-assign creates of a run, in order. -/
def autoAssigned : Store → List Request → List Int
  | _, [] => []
  | s, r :: rs => (autoAssignedBy s r).toList ++ autoAssigned (UserHandler s r).1 rs

/-- Every key of the map is the `ID` of the record stored under it. -/
def KeyIdConsistent (s : Store) : Prop := ∀ k u, s.Users k = some u → u.ID = k

/-! ## Concrete stores and requests used as instances -/

/-- An empty store whose counter is the largest `int`. -/
def storeAtMaxInt : Store := { Users := fun _ => none, NextID := maxInt }

/-- The store of `TestCreateUserWithExistingID`: the seeded store plus user 400. -/
def storeWith400 : Store :=
  { Users := mapSet seededStore.Users 400 ⟨400, "Existing User"⟩, NextID := 2 }

/-- The seeded store after a caller has created a record under the id 2. -/
def storeWith2 : Store :=
  { Users := mapSet seededStore.Users 2 ⟨2, "Bob"⟩, NextID := 2 }

/-- A `POST /user` whose body decodes to `u`. -/
def postUser (u : User) : Request := ⟨"POST", "/user", [], some u⟩

/-- A `PATCH /user` whose body decodes to `u`. -/
def patchUser (u : User) : Request := ⟨"PATCH", "/user", [], some u⟩

/-- A `GET /user?id=<idStr>`. -/
def getUser (idStr : String) : Request := ⟨"GET", "/user", [("id", idStr)], none⟩

/-- A `DELETE /user?id=<idStr>`. -/
def deleteUser (idStr : String) : Request := ⟨"DELETE", "/user", [("id", idStr)], none⟩

/-- A run on which a record is auto-assigned, deleted, and another auto-assigned. -/
def createDeleteCreate : List Request :=
  [postUser ⟨0, "Alice"⟩, deleteUser "2", postUser ⟨0, "Bob"⟩]

/-- The seeded store after a record has been auto-assigned the id 2 and deleted. -/
def storeAfterDelete : Store := serve seededStore [postUser ⟨0, "Alice"⟩, deleteUser "2"]

/-- The responses written while the requests are served one after another. -/
def responses : Store → List Request → List Response
  | _, [] => []
  | s, r :: rs => (UserHandler s r).2 :: responses (UserHandler s r).1 rs

/-- The string is written as a decimal integer: an optional sign, then one or
more decimal digits, and nothing else. -/
def isDecimalInteger (str : String) : Bool :=
  match str.data with
  | '-' :: ds => !ds.isEmpty && ds.all Char.isDigit
  | '+' :: ds => !ds.isEmpty && ds.all Char.isDigit
  | ds => !ds.isEmpty && ds.all Char.isDigit

/-- One auto-assign create (`POST /user` with id 0) per name, in order. -/
def autoCreates (names : List String) : List Request :=
  names.map (fun n => postUser ⟨0, n⟩)

/-- The requests of the end-to-end scenario: create "Alice", get 1, rename to
"Alicia", delete 1, get 1. -/
def scenario : List Request :=
  [postUser ⟨0, "Alice"⟩, getUser "1", patchUser ⟨1, "Alicia"⟩, deleteUser "1", getUser "1"]

/-- A store in which the largest `int` is both a key and the value of the counter. -/
def storeFullAtMaxInt : Store :=
  { Users := mapSet (fun _ => none) maxInt ⟨maxInt, "Last"⟩, NextID := maxInt }

/-- A store with an empty map and the counter at `k`. -/
def emptyStore (k : Int) : Store := { Users := fun _ => none, NextID := k }

/-! ## `Atoi` reads back what `Itoa` writes -/

theorem digitChar_spec : ∀ d, d < 10 →
    (digitChar d).isDigit = true ∧ (digitChar d).toNat - 48 = d ∧
      digitChar d ≠ '-' ∧ digitChar d ≠ '+' := by
  decide

theorem parseDigits_natDigits (fuel : Nat) : ∀ (n : Nat) (acc : List Char), n < fuel →
    ∃ d ds, natDigits fuel n acc = d :: (ds ++ acc) ∧ d ≠ '-' ∧ d ≠ '+' ∧
      ∀ v rest, parseDigits v (d :: (ds ++ rest)) =
        parseDigits (v * 10 ^ (ds.length + 1) + n) rest := by
  induction fuel with
  | zero => intro n acc h; omega
  | succ fuel ih =>
    intro n acc hn
    obtain ⟨hdig, hval, hminus, hplus⟩ := digitChar_spec (n % 10) (Nat.mod_lt _ (by decide))
    by_cases h0 : n / 10 = 0
    · refine ⟨digitChar (n % 10), [], ?_, hminus, hplus, ?_⟩
      · simp [natDigits, h0]
      · intro v rest
        have hn10 : n % 10 = n := by omega
        simp only [List.nil_append, parseDigits, hdig, hval, if_true, List.length_nil]
        rw [hn10]
        norm_num
    · have hlt : n / 10 < fuel := by omega
      obtain ⟨d, ds, hds, hm, hp, hparse⟩ := ih (n / 10) (digitChar (n % 10) :: acc) hlt
      refine ⟨d, ds ++ [digitChar (n % 10)], ?_, hm, hp, ?_⟩
      · simp [natDigits, h0, hds]
      · intro v rest
        have := hparse v (digitChar (n % 10) :: rest)
        rw [List.append_assoc]
        simp only [List.singleton_append]
        rw [this]
        simp only [parseDigits, hdig, hval, if_true, List.length_append, List.length_singleton]
        congr 1
        have e : v * 10 ^ (ds.length + 1 + 1) = v * 10 ^ (ds.length + 1) * 10 := by ring
        rw [e]
        generalize v * 10 ^ (ds.length + 1) = q
        omega

/-- For every value of `int`, `strconv.Atoi` reads back what `strconv.Itoa` writes. -/
theorem Atoi_Itoa (i : Int) (h : IsInt i) : Atoi (Itoa i) = some i := by
  obtain ⟨d, ds, hds, hm, hp, hparse⟩ :=
    parseDigits_natDigits (i.natAbs + 1) i.natAbs [] (Nat.lt_succ_self _)
  have hp0 := hparse 0 []
  simp only [List.append_nil, zero_mul, zero_add] at hds hp0
  have hparse0 : parseDigits 0 (d :: ds) = some i.natAbs := by
    rw [hp0]; rfl
  have hsplit : splitSign (d :: ds) = (false, d :: ds) := by
    unfold splitSign
    split
    · rename_i heq; cases heq; exact absurd rfl hm
    · rename_i heq; cases heq; exact absurd rfl hp
    · rfl
  obtain ⟨hlo, hhi⟩ := h
  by_cases hneg : i < 0
  · have hv : -((i.natAbs : Nat) : Int) = i := by omega
    simp only [Atoi, Itoa, hneg, if_true, hds, splitSign, hparse0, hv]
    simp [hlo, hhi]
  · have hv : ((i.natAbs : Nat) : Int) = i := by omega
    simp only [Atoi, Itoa, hneg, if_false, hds, hsplit, hparse0, hv]
    simp [hlo, hhi]

/-! ## Create -/

theorem wrapInt_of_isInt (x : Int) (h : IsInt x) : wrapInt x = x := by
  obtain ⟨hlo, hhi⟩ := h
  unfold minInt at hlo
  unfold maxInt at hhi
  unfold wrapInt
  omega

/-- What `handleCreateUser` does with a decoded body whose name is not empty. -/
theorem UserHandler_post (s : Store) (r : Request) (u : User)
    (hm : r.method = "POST") (hb : r.body = some u) (hn : u.Name ≠ "") :
    UserHandler s r =
      if u.ID = 0 then
        match s.Users s.NextID with
        | some _ =>
          ({ s with NextID := wrapInt (s.NextID + 1) }, httpError "User already exists" 409)
        | none =>
          ({ Users := mapSet s.Users s.NextID { u with ID := s.NextID },
             NextID := wrapInt (s.NextID + 1) },
            ⟨201, Body.json { u with ID := s.NextID }⟩)
      else
        match s.Users u.ID with
        | some _ => (s, httpError "User already exists" 409)
        | none => ({ s with Users := mapSet s.Users u.ID u }, ⟨201, Body.json u⟩) := by
  have hg : ¬ ("POST" = "GET") := by decide
  simp only [UserHandler, hm, hg, if_false, if_true, handleCreateUser, hb, hn]
  by_cases h0 : u.ID = 0
  · simp only [h0, if_true]
  · simp only [h0, if_false]

/-- C1, counterexample: in an empty store whose counter is the largest `int`, the
auto-assign create of "Alice" is answered 201 with id `maxInt`, and the counter
becomes `minInt`, not `maxInt + 1`. -/
theorem C1_counterexample :
    (postUser ⟨0, "Alice"⟩).body = some ⟨0, "Alice"⟩ ∧ "Alice" ≠ "" ∧
      storeAtMaxInt.Users storeAtMaxInt.NextID = none ∧
      (UserHandler storeAtMaxInt (postUser ⟨0, "Alice"⟩)).2 = ⟨201, Body.json ⟨maxInt, "Alice"⟩⟩ ∧
      (UserHandler storeAtMaxInt (postUser ⟨0, "Alice"⟩)).1.NextID = minInt ∧
      (UserHandler storeAtMaxInt (postUser ⟨0, "Alice"⟩)).1.NextID ≠ storeAtMaxInt.NextID + 1 := by
  decide

/-- C1, amended: a `POST` whose body decodes to a record with id 0 and a non-empty
name, served while `NextID` is not a key, is answered 201 with the record
`{NextID, name}`; the new map is the old one plus that record under the old
`NextID`; the counter becomes the old `NextID + 1` when the old `NextID` is an
`int` below `maxInt`, and wraps to `minInt` when it is `maxInt`. -/
theorem C1_auto_assign_create (s : Store) (r : Request) (name : String)
    (hm : r.method = "POST") (hb : r.body = some ⟨0, name⟩) (hn : name ≠ "")
    (hfree : s.Users s.NextID = none) :
    (UserHandler s r).2 = ⟨201, Body.json ⟨s.NextID, name⟩⟩ ∧
      (∀ k, (UserHandler s r).1.Users k =
        if k = s.NextID then some ⟨s.NextID, name⟩ else s.Users k) ∧
      (IsInt s.NextID → s.NextID < maxInt → (UserHandler s r).1.NextID = s.NextID + 1) ∧
      (s.NextID = maxInt → (UserHandler s r).1.NextID = minInt) := by
  have h := UserHandler_post s r ⟨0, name⟩ hm hb hn
  simp only [if_true, hfree] at h
  rw [h]
  refine ⟨rfl, fun k => rfl, ?_, ?_⟩
  · intro hint hlt
    exact wrapInt_of_isInt _ ⟨by have := hint.1; omega, by omega⟩
  · intro hmax
    show wrapInt (s.NextID + 1) = minInt
    rw [hmax]
    decide

/-- C1, instance: the auto-assign create of "Alice" in the seeded store. -/
theorem C1_auto_assign_create_witness :
    (UserHandler seededStore (postUser ⟨0, "Alice"⟩)).2 = ⟨201, Body.json ⟨2, "Alice"⟩⟩ ∧
      (UserHandler seededStore (postUser ⟨0, "Alice"⟩)).1.NextID = 3 :=
  have h := C1_auto_assign_create seededStore (postUser ⟨0, "Alice"⟩) "Alice" rfl rfl
    (by decide) (by decide)
  ⟨h.1, h.2.2.1 (by decide) (by decide)⟩

/-- C2, counterexample: user 400 exists, yet a `POST` with id 400 and the empty
name is answered 400 "Name is required", not 409. -/
theorem C2_counterexample :
    (400 : Int) ≠ 0 ∧ storeWith400.Users 400 ≠ none ∧
      (UserHandler storeWith400 (postUser ⟨400, ""⟩)).2 = httpError "Name is required" 400 ∧
      (UserHandler storeWith400 (postUser ⟨400, ""⟩)).2.status ≠ 409 := by
  decide

/-- C2, amended: a `POST` with a non-zero id that is a key of the map and any
non-empty name is answered 409. -/
theorem C2_existing_id_conflict (s : Store) (r : Request) (id : Int) (name : String)
    (hm : r.method = "POST") (hb : r.body = some ⟨id, name⟩) (hid : id ≠ 0)
    (hex : s.Users id ≠ none) (hn : name ≠ "") :
    (UserHandler s r).2.status = 409 := by
  rw [UserHandler_post s r ⟨id, name⟩ hm hb hn]
  simp only [hid, if_false]
  cases hu : s.Users id with
  | none => exact absurd hu hex
  | some v => rfl

/-- C2, instance: the duplicate create of `TestCreateUserWithExistingID`. -/
theorem C2_existing_id_conflict_witness :
    (UserHandler storeWith400 (postUser ⟨400, "Duplicate"⟩)).2.status = 409 :=
  C2_existing_id_conflict storeWith400 (postUser ⟨400, "Duplicate"⟩) 400 "Duplicate" rfl rfl
    (by decide) (by decide) (by decide)

/-- C3: a `POST` whose body decodes to a record with a non-empty name is answered
409 exactly when the resulting id (`NextID` for a supplied id 0, the supplied id
otherwise) is a key of the map, and 201 otherwise; in particular an auto-assign
create is answered 409 whenever `NextID` is already a key. -/
theorem C3_conflict_iff_resulting_id_exists (s : Store) (r : Request) (u : User)
    (hm : r.method = "POST") (hb : r.body = some u) (hn : u.Name ≠ "") :
    ((UserHandler s r).2.status = 409 ↔
        s.Users (if u.ID = 0 then s.NextID else u.ID) ≠ none) ∧
      (s.Users (if u.ID = 0 then s.NextID else u.ID) = none →
        (UserHandler s r).2.status = 201) ∧
      (u.ID = 0 → s.Users s.NextID ≠ none → (UserHandler s r).2.status = 409) := by
  rw [UserHandler_post s r u hm hb hn]
  by_cases h0 : u.ID = 0
  · simp only [h0, if_true]
    cases hu : s.Users s.NextID with
    | none => simp
    | some v => simp [httpError]
  · simp only [h0, if_false]
    cases hu : s.Users u.ID with
    | none => simp
    | some v => simp [httpError]

/-- C3, instance: key 2 is taken by a caller-supplied record while `NextID` is 2,
and the auto-assign create of "Alice" is answered 409. -/
theorem C3_conflict_iff_resulting_id_exists_witness :
    storeWith2.Users storeWith2.NextID ≠ none ∧
      (UserHandler storeWith2 (postUser ⟨0, "Alice"⟩)).2.status = 409 :=
  ⟨by decide,
    (C3_conflict_iff_resulting_id_exists storeWith2 (postUser ⟨0, "Alice"⟩) ⟨0, "Alice"⟩ rfl rfl
      (by decide)).2.2 rfl (by decide)⟩

/-- C4: a `POST` with a non-zero id that is not a key of the map and a non-empty
name is answered 201 with the supplied record; the record is stored under the
supplied id, every other entry is unchanged, and `NextID` is unchanged. -/
theorem C4_explicit_id_create (s : Store) (r : Request) (id : Int) (name : String)
    (hm : r.method = "POST") (hb : r.body = some ⟨id, name⟩) (hid : id ≠ 0)
    (hfree : s.Users id = none) (hn : name ≠ "") :
    (UserHandler s r).2 = ⟨201, Body.json ⟨id, name⟩⟩ ∧
      (UserHandler s r).1.Users id = some ⟨id, name⟩ ∧
      (∀ k, k ≠ id → (UserHandler s r).1.Users k = s.Users k) ∧
      (UserHandler s r).1.NextID = s.NextID := by
  have h := UserHandler_post s r ⟨id, name⟩ hm hb hn
  simp only [hid, if_false, hfree] at h
  rw [h]
  refine ⟨rfl, ?_, ?_, rfl⟩
  · simp [mapSet]
  · intro k hk
    simp [mapSet, hk]

/-- C4, instance: creating `{5, "Bob"}` in the seeded store. -/
theorem C4_explicit_id_create_witness :
    (UserHandler seededStore (postUser ⟨5, "Bob"⟩)).2 = ⟨201, Body.json ⟨5, "Bob"⟩⟩ ∧
      (UserHandler seededStore (postUser ⟨5, "Bob"⟩)).1.Users 5 = some ⟨5, "Bob"⟩ ∧
      (UserHandler seededStore (postUser ⟨5, "Bob"⟩)).1.NextID = 2 :=
  have h := C4_explicit_id_create seededStore (postUser ⟨5, "Bob"⟩) 5 "Bob" rfl rfl
    (by decide) (by decide) (by decide)
  ⟨h.1, h.2.1, h.2.2.2⟩

/-! ## The counter along a run -/

theorem reachesIncrement_of_ne (r : Request) (h : r.method ≠ "POST") :
    reachesIncrement r = false := by
  unfold reachesIncrement
  cases r.body <;> simp [h]

/-- The counter after any request: incremented (with wrap-around) exactly when
the request reaches `NextID++`. -/
theorem UserHandler_NextID (s : Store) (r : Request) :
    (UserHandler s r).1.NextID =
      if reachesIncrement r = true then wrapInt (s.NextID + 1) else s.NextID := by
  by_cases hpost : r.method = "POST"
  · have hg : ¬ ("POST" = "GET") := by decide
    cases hb : r.body with
    | none => simp [UserHandler, hpost, hg, handleCreateUser, reachesIncrement, hb]
    | some u =>
      by_cases hn : u.Name = ""
      · simp [UserHandler, hpost, hg, handleCreateUser, reachesIncrement, hb, hn]
      · rw [UserHandler_post s r u hpost hb hn]
        by_cases h0 : u.ID = 0
        · have hinc : reachesIncrement r = true := by
            simp [reachesIncrement, hb, hpost, hn, h0]
          rw [hinc]
          simp only [h0, if_true]
          cases hu : s.Users s.NextID <;> rfl
        · have hinc : reachesIncrement r = false := by
            simp [reachesIncrement, hb, hpost, hn, h0]
          rw [hinc]
          simp only [h0, if_false, Bool.false_eq_true]
          cases hu : s.Users u.ID <;> rfl
  · rw [reachesIncrement_of_ne r hpost]
    simp only [Bool.false_eq_true, if_false]
    unfold UserHandler
    by_cases hget : r.method = "GET"
    · simp only [hget, if_true, handleGetUser]
      split
      · rfl
      · split
        · rfl
        · split <;> rfl
    · simp only [hget, hpost, if_false]
      by_cases hpatch : r.method = "PATCH"
      · simp only [hpatch, if_true, handleUpdateUser]
        split
        · rfl
        · split <;> rfl
      · simp only [hpatch, if_false]
        by_cases hdel : r.method = "DELETE"
        · simp only [hdel, if_true, handleDeleteUser]
          split
          · rfl
          · split
            · rfl
            · split <;> rfl
        · simp only [hdel, if_false]

/-- A successful auto-assign create reaches `NextID++` and hands out the old
value of the counter. -/
theorem autoAssignedBy_eq_some (s : Store) (r : Request) (id : Int)
    (h : autoAssignedBy s r = some id) : reachesIncrement r = true ∧ id = s.NextID := by
  unfold autoAssignedBy at h
  cases hb : r.body with
  | none => simp [hb] at h
  | some u =>
    simp only [hb] at h
    by_cases hc : r.method = "POST" ∧ u.ID = 0 ∧ (UserHandler s r).2.status = 201
    · obtain ⟨hm, h0, hst⟩ := hc
      by_cases hn : u.Name = ""
      · have hg : ¬ ("POST" = "GET") := by decide
        have hresp : (UserHandler s r).2 = httpError "Name is required" 400 := by
          simp [UserHandler, hm, hg, handleCreateUser, hb, hn]
        rw [hresp] at hst
        simp [httpError] at hst
      · have hpost := UserHandler_post s r u hm hb hn
        simp only [h0, if_true] at hpost
        cases hu : s.Users s.NextID with
        | some v =>
          rw [hu] at hpost
          rw [hpost] at hst
          simp [httpError] at hst
        | none =>
          rw [hu] at hpost
          rw [hpost] at h
          simp only [hm, h0, and_self, if_true, Option.some.injEq, true_and] at h
          refine ⟨?_, h.symm⟩
          simp [reachesIncrement, hb, hm, hn, h0]
    · simp [hc] at h

/-- Serving an overflow-free run never lowers the counter; the ids handed out
lie between the first and the last value of the counter and increase strictly. -/
theorem autoAssigned_bounds : ∀ (reqs : List Request) (s : Store),
    overflowFree s reqs = true →
      s.NextID ≤ (serve s reqs).NextID ∧
      (∀ id ∈ autoAssigned s reqs, s.NextID ≤ id ∧ id < (serve s reqs).NextID) ∧
      List.Pairwise (fun a b => a < b) (autoAssigned s reqs) := by
  intro reqs
  induction reqs with
  | nil => intro s _; simp [serve, autoAssigned]
  | cons r rs ih =>
    intro s h
    simp only [overflowFree, Bool.and_eq_true, Bool.or_eq_true, Bool.not_eq_true',
      decide_eq_true_eq] at h
    obtain ⟨hstep, hrest⟩ := h
    obtain ⟨hle, hmem, hpw⟩ := ih (UserHandler s r).1 hrest
    have hnext := UserHandler_NextID s r
    have hmono : s.NextID ≤ (UserHandler s r).1.NextID := by
      rw [hnext]
      rcases hstep with hno | hint
      · simp [hno]
      · rw [wrapInt_of_isInt _ hint]
        split <;> omega
    simp only [serve, autoAssigned]
    refine ⟨le_trans hmono hle, ?_, ?_⟩
    · intro id hid
      rcases List.mem_append.mp hid with h1 | h2
      · have hsome : autoAssignedBy s r = some id := by
          cases ha : autoAssignedBy s r with
          | none => rw [ha] at h1; simp at h1
          | some v => rw [ha] at h1; simp at h1; rw [h1]
        obtain ⟨hinc, hidv⟩ := autoAssignedBy_eq_some s r id hsome
        rcases hstep with hno | hint
        · rw [hno] at hinc; exact absurd hinc (by decide)
        · rw [hinc, if_pos rfl, wrapInt_of_isInt _ hint] at hnext
          constructor <;> omega
      · obtain ⟨hlo, hhi⟩ := hmem id h2
        exact ⟨le_trans hmono hlo, hhi⟩
    · rw [List.pairwise_append]
      refine ⟨?_, hpw, ?_⟩
      · cases autoAssignedBy s r <;> simp
      · intro a ha b hb
        have hsome : autoAssignedBy s r = some a := by
          cases hq : autoAssignedBy s r with
          | none => rw [hq] at ha; simp at ha
          | some v => rw [hq] at ha; simp at ha; rw [ha]
        obtain ⟨hinc, hidv⟩ := autoAssignedBy_eq_some s r a hsome
        rcases hstep with hno | hint
        · rw [hno] at hinc; exact absurd hinc (by decide)
        · rw [hinc, if_pos rfl, wrapInt_of_isInt _ hint] at hnext
          have := (hmem b hb).1
          omega

/-- A prefix of an overflow-free run is overflow-free. -/
theorem overflowFree_take : ∀ (reqs : List Request) (s : Store) (n : Nat),
    overflowFree s reqs = true → overflowFree s (reqs.take n) = true := by
  intro reqs
  induction reqs with
  | nil => intro s n h; simpa using h
  | cons r rs ih =>
    intro s n h
    cases n with
    | zero => rfl
    | succ n =>
      simp only [List.take_succ_cons, overflowFree, Bool.and_eq_true] at h ⊢
      exact ⟨h.1, ih _ n h.2⟩

/-- C5: along every run of requests from any store, as long as no `NextID++`
overflows, the ids handed out by successful auto-assign creates increase
strictly (so none is handed out twice), and after every prefix of the run the
counter is above every id auto-assigned so far, deletions included. -/
theorem C5_auto_assigned_ids_increase (s : Store) (reqs : List Request)
    (h : overflowFree s reqs = true) :
    List.Pairwise (fun a b => a < b) (autoAssigned s reqs) ∧
      (autoAssigned s reqs).Nodup ∧
      ∀ n, ∀ id ∈ autoAssigned s (reqs.take n), id < (serve s (reqs.take n)).NextID := by
  have hpw := (autoAssigned_bounds reqs s h).2.2
  refine ⟨hpw, ?_, ?_⟩
  · exact hpw.imp (fun hab => ne_of_lt hab)
  · intro n id hid
    exact ((autoAssigned_bounds (reqs.take n) s (overflowFree_take reqs s n h)).2.1 id hid).2

/-- C5, instance: from the seeded store, create, delete the created record,
create again: the ids handed out are 2 and then 3. -/
theorem C5_auto_assigned_ids_increase_witness :
    overflowFree seededStore createDeleteCreate = true ∧
      autoAssigned seededStore createDeleteCreate = [2, 3] ∧
      (serve seededStore createDeleteCreate).Users 2 = none ∧
      List.Pairwise (fun a b => a < b) (autoAssigned seededStore createDeleteCreate) :=
  ⟨by decide, by decide, by decide,
    (C5_auto_assigned_ids_increase seededStore createDeleteCreate (by decide)).1⟩

/-! ## Key/id consistency -/

/-- After any request, an entry of the map is an entry of the old map or a
record stored under its own `ID`. -/
theorem UserHandler_Users (s : Store) (r : Request) (k : Int) (v : User)
    (h : (UserHandler s r).1.Users k = some v) : s.Users k = some v ∨ v.ID = k := by
  by_cases hpost : r.method = "POST"
  · have hg : ¬ ("POST" = "GET") := by decide
    cases hb : r.body with
    | none =>
      simp only [UserHandler, hpost, hg, if_false, if_true, handleCreateUser, hb] at h
      exact Or.inl h
    | some u =>
      by_cases hn : u.Name = ""
      · simp only [UserHandler, hpost, hg, if_false, if_true, handleCreateUser, hb, hn] at h
        exact Or.inl h
      · rw [UserHandler_post s r u hpost hb hn] at h
        by_cases h0 : u.ID = 0
        · simp only [h0, if_true] at h
          cases hu : s.Users s.NextID with
          | some w => rw [hu] at h; exact Or.inl h
          | none =>
            rw [hu] at h
            simp only [mapSet] at h
            by_cases hk : k = s.NextID
            · simp only [hk, if_true, Option.some.injEq] at h
              right; rw [← h, hk]
            · simp only [hk, if_false] at h
              exact Or.inl h
        · simp only [h0, if_false] at h
          cases hu : s.Users u.ID with
          | some w => rw [hu] at h; exact Or.inl h
          | none =>
            rw [hu] at h
            simp only [mapSet] at h
            by_cases hk : k = u.ID
            · simp only [hk, if_true, Option.some.injEq] at h
              right; rw [← h, hk]
            · simp only [hk, if_false] at h
              exact Or.inl h
  · unfold UserHandler at h
    by_cases hget : r.method = "GET"
    · simp only [hget, if_true, handleGetUser] at h
      left
      split at h
      · exact h
      · split at h
        · exact h
        · split at h <;> exact h
    · simp only [hget, hpost, if_false] at h
      by_cases hpatch : r.method = "PATCH"
      · simp only [hpatch, if_true, handleUpdateUser] at h
        split at h
        · exact Or.inl h
        · rename_i u hb
          split at h
          · exact Or.inl h
          · simp only [mapSet] at h
            by_cases hk : k = u.ID
            · simp only [hk, if_true, Option.some.injEq] at h
              right; rw [← h, hk]
            · simp only [hk, if_false] at h
              exact Or.inl h
      · simp only [hpatch, if_false] at h
        by_cases hdel : r.method = "DELETE"
        · simp only [hdel, if_true, handleDeleteUser] at h
          left
          split at h
          · exact h
          · split at h
            · exact h
            · split at h
              · exact h
              · simp only [mapDelete] at h
                split at h
                · exact Option.noConfusion h
                · exact h
        · simp only [hdel, if_false] at h
          exact Or.inl h

theorem KeyIdConsistent_step (s : Store) (r : Request) (h : KeyIdConsistent s) :
    KeyIdConsistent (UserHandler s r).1 := by
  intro k v hv
  rcases UserHandler_Users s r k v hv with hold | hnew
  · exact h k v hold
  · exact hnew

theorem KeyIdConsistent_serve : ∀ (reqs : List Request) (s : Store),
    KeyIdConsistent s → KeyIdConsistent (serve s reqs) := by
  intro reqs
  induction reqs with
  | nil => intro s h; exact h
  | cons r rs ih => intro s h; exact ih _ (KeyIdConsistent_step s r h)

theorem KeyIdConsistent_seededStore : KeyIdConsistent seededStore := by
  intro k v hv
  simp only [seededStore, mapSet] at hv
  by_cases hk : k = 1
  · simp only [hk, if_true, Option.some.injEq] at hv
    rw [← hv, hk]
  · simp [hk] at hv

/-- C6: if every key of the map is the `ID` of its record before a request, it is
so after the request, whatever the request; the seeded store of `main` has the
property, and so has every store reached from it by serving requests. -/
theorem C6_key_id_consistency :
    (∀ (s : Store) (r : Request), KeyIdConsistent s → KeyIdConsistent (UserHandler s r).1) ∧
      KeyIdConsistent seededStore ∧
      ∀ reqs : List Request, KeyIdConsistent (serve seededStore reqs) :=
  ⟨KeyIdConsistent_step, KeyIdConsistent_seededStore,
    fun reqs => KeyIdConsistent_serve reqs seededStore KeyIdConsistent_seededStore⟩

/-- C6, instance: the seeded store after the creation of `{5, "Bob"}`. -/
theorem C6_key_id_consistency_witness :
    KeyIdConsistent seededStore ∧
      KeyIdConsistent (UserHandler seededStore (postUser ⟨5, "Bob"⟩)).1 :=
  ⟨KeyIdConsistent_seededStore,
    C6_key_id_consistency.1 seededStore (postUser ⟨5, "Bob"⟩) KeyIdConsistent_seededStore⟩

/-! ## Get, Update and Delete -/

theorem queryGet_ne_empty (q : List (String × String)) (id : Int)
    (h : Atoi (queryGet q "id") = some id) : queryGet q "id" ≠ "" := by
  intro he
  rw [he] at h
  exact Option.noConfusion h

/-- What `handleGetUser` does when the `id` parameter reads as `id`. -/
theorem UserHandler_get (s : Store) (r : Request) (id : Int)
    (hm : r.method = "GET") (hq : Atoi (queryGet r.query "id") = some id) :
    UserHandler s r =
      match s.Users id with
      | none => (s, httpError "User not found" 404)
      | some user => (s, ⟨200, Body.json user⟩) := by
  have hne := queryGet_ne_empty r.query id hq
  simp only [UserHandler, hm, if_true, handleGetUser, hne, if_false, hq]

/-- What `handleUpdateUser` does with a decoded body. -/
theorem UserHandler_patch (s : Store) (r : Request) (u : User)
    (hm : r.method = "PATCH") (hb : r.body = some u) :
    UserHandler s r =
      match s.Users u.ID with
      | none => (s, httpError "User not found" 404)
      | some _ => ({ s with Users := mapSet s.Users u.ID u }, ⟨200, Body.json u⟩) := by
  have h1 : ¬ ("PATCH" = "GET") := by decide
  have h2 : ¬ ("PATCH" = "POST") := by decide
  simp only [UserHandler, hm, h1, h2, if_false, if_true, handleUpdateUser, hb]

/-- What `handleDeleteUser` does when the `id` parameter reads as `id`. -/
theorem UserHandler_delete (s : Store) (r : Request) (id : Int)
    (hm : r.method = "DELETE") (hq : Atoi (queryGet r.query "id") = some id) :
    UserHandler s r =
      match s.Users id with
      | none => (s, httpError "User not found :<" 404)
      | some _ => ({ s with Users := mapDelete s.Users id }, ⟨204, Body.empty⟩) := by
  have hne := queryGet_ne_empty r.query id hq
  have h1 : ¬ ("DELETE" = "GET") := by decide
  have h2 : ¬ ("DELETE" = "POST") := by decide
  have h3 : ¬ ("DELETE" = "PATCH") := by decide
  simp only [UserHandler, hm, h1, h2, h3, if_false, if_true, handleDeleteUser, hne, hq]

/-- C7, counterexample: the integer 9223372036854775808, one above the largest
`int`, is not a key of the seeded store, yet `GET /user?id=9223372036854775808`
and `DELETE /user?id=9223372036854775808` are answered 400 "Invalid user ID",
not 404. -/
theorem C7_counterexample :
    seededStore.Users (maxInt + 1) = none ∧
      Itoa (maxInt + 1) = "9223372036854775808" ∧
      (UserHandler seededStore (getUser (Itoa (maxInt + 1)))).2 =
        httpError "Invalid user ID" 400 ∧
      (UserHandler seededStore (getUser (Itoa (maxInt + 1)))).2.status ≠ 404 ∧
      (UserHandler seededStore (deleteUser (Itoa (maxInt + 1)))).2 =
        httpError "Invalid user ID" 400 ∧
      (UserHandler seededStore (deleteUser (Itoa (maxInt + 1)))).2.status ≠ 404 := by
  decide

/-- C7, amended: for every id that is a value of `int` and not a key of the map,
`GET /user?id=<id>`, `PATCH /user` with a body whose id is `id`, and
`DELETE /user?id=<id>` are answered 404 ("User not found", "User not found",
"User not found :<") and leave the store as it was. -/
theorem C7_not_found (s : Store) (id : Int) (hint : IsInt id) (habs : s.Users id = none) :
    (∀ r : Request, r.method = "GET" → queryGet r.query "id" = Itoa id →
        UserHandler s r = (s, httpError "User not found" 404)) ∧
      (∀ (r : Request) (name : String), r.method = "PATCH" → r.body = some ⟨id, name⟩ →
        UserHandler s r = (s, httpError "User not found" 404)) ∧
      (∀ r : Request, r.method = "DELETE" → queryGet r.query "id" = Itoa id →
        UserHandler s r = (s, httpError "User not found :<" 404)) := by
  refine ⟨?_, ?_, ?_⟩
  · intro r hm hq
    have hparse : Atoi (queryGet r.query "id") = some id := by rw [hq]; exact Atoi_Itoa id hint
    rw [UserHandler_get s r id hm hparse, habs]
  · intro r name hm hb
    rw [UserHandler_patch s r ⟨id, name⟩ hm hb]
    simp only [habs]
  · intro r hm hq
    have hparse : Atoi (queryGet r.query "id") = some id := by rw [hq]; exact Atoi_Itoa id hint
    rw [UserHandler_delete s r id hm hparse, habs]

/-- C7, instance: id 2 was auto-assigned and deleted; a `GET` for it is answered 404. -/
theorem C7_not_found_witness :
    storeAfterDelete.Users 2 = none ∧
      UserHandler storeAfterDelete (getUser (Itoa 2)) =
        (storeAfterDelete, httpError "User not found" 404) :=
  ⟨by decide,
    (C7_not_found storeAfterDelete 2 (by decide) (by decide)).1 (getUser (Itoa 2)) rfl rfl⟩

/-- A `POST` answered 201 with a record has stored that record under its `ID`. -/
theorem created_is_stored (s : Store) (r : Request) (u : User) (hm : r.method = "POST")
    (h : (UserHandler s r).2 = ⟨201, Body.json u⟩) :
    (UserHandler s r).1.Users u.ID = some u := by
  have hg : ¬ ("POST" = "GET") := by decide
  cases hb : r.body with
  | none =>
    simp [UserHandler, hm, hg, handleCreateUser, hb, httpError] at h
  | some w =>
    by_cases hn : w.Name = ""
    · simp [UserHandler, hm, hg, handleCreateUser, hb, hn, httpError] at h
    · have hpost := UserHandler_post s r w hm hb hn
      by_cases h0 : w.ID = 0
      · simp only [h0, if_true] at hpost
        cases hu : s.Users s.NextID with
        | some x =>
          rw [hu] at hpost
          rw [hpost] at h
          simp [httpError] at h
        | none =>
          rw [hu] at hpost
          rw [hpost] at h ⊢
          simp only [Response.mk.injEq, Body.json.injEq, true_and] at h
          rw [← h]
          simp [mapSet]
      · simp only [h0, if_false] at hpost
        cases hu : s.Users w.ID with
        | some x =>
          rw [hu] at hpost
          rw [hpost] at h
          simp [httpError] at h
        | none =>
          rw [hu] at hpost
          rw [hpost] at h ⊢
          simp only [Response.mk.injEq, Body.json.injEq, true_and] at h
          rw [← h]
          simp [mapSet]

/-- C8: when a `POST` is answered 201 with the record `u`, a `GET /user?id=<u.ID>`
served right after it is answered 200 with `u`. -/
theorem C8_create_get_round_trip (s : Store) (r g : Request) (u : User)
    (hm : r.method = "POST") (h201 : (UserHandler s r).2 = ⟨201, Body.json u⟩)
    (hint : IsInt u.ID) (hg : g.method = "GET") (hq : queryGet g.query "id" = Itoa u.ID) :
    (UserHandler (UserHandler s r).1 g).2 = ⟨200, Body.json u⟩ := by
  have hparse : Atoi (queryGet g.query "id") = some u.ID := by
    rw [hq]; exact Atoi_Itoa u.ID hint
  rw [UserHandler_get _ g u.ID hg hparse, created_is_stored s r u hm h201]

/-- C8, instance: "Alice" is created in the seeded store and fetched back. -/
theorem C8_create_get_round_trip_witness :
    (UserHandler seededStore (postUser ⟨0, "Alice"⟩)).2 = ⟨201, Body.json ⟨2, "Alice"⟩⟩ ∧
      (UserHandler (UserHandler seededStore (postUser ⟨0, "Alice"⟩)).1 (getUser (Itoa 2))).2 =
        ⟨200, Body.json ⟨2, "Alice"⟩⟩ :=
  ⟨by decide,
    C8_create_get_round_trip seededStore (postUser ⟨0, "Alice"⟩) (getUser (Itoa 2))
      ⟨2, "Alice"⟩ rfl (by decide) (by decide) rfl rfl⟩

/-- C9: a `PATCH` whose body decodes to `{id, name}` with `id` a key of the map,
whatever the name, is answered 200 with the supplied record; the entry under
`id` becomes that record, the set of keys, every other entry and `NextID` are
unchanged. -/
theorem C9_update_replaces_record (s : Store) (r : Request) (id : Int) (name : String)
    (hm : r.method = "PATCH") (hb : r.body = some ⟨id, name⟩) (hex : s.Users id ≠ none) :
    (UserHandler s r).2 = ⟨200, Body.json ⟨id, name⟩⟩ ∧
      (UserHandler s r).1.Users id = some ⟨id, name⟩ ∧
      (∀ k, (UserHandler s r).1.Users k ≠ none ↔ s.Users k ≠ none) ∧
      (∀ k, k ≠ id → (UserHandler s r).1.Users k = s.Users k) ∧
      (UserHandler s r).1.NextID = s.NextID := by
  rw [UserHandler_patch s r ⟨id, name⟩ hm hb]
  cases hu : s.Users id with
  | none => exact absurd hu hex
  | some v =>
    refine ⟨rfl, ?_, ?_, ?_, rfl⟩
    · simp [mapSet]
    · intro k
      by_cases hk : k = id
      · simp [mapSet, hk, hu]
      · simp [mapSet, hk]
    · intro k hk
      simp [mapSet, hk]

/-- C9, instance: user 1 of the seeded store is given the empty name. -/
theorem C9_update_replaces_record_witness :
    (UserHandler seededStore (patchUser ⟨1, ""⟩)).2 = ⟨200, Body.json ⟨1, ""⟩⟩ ∧
      (UserHandler seededStore (patchUser ⟨1, ""⟩)).1.Users 1 = some ⟨1, ""⟩ :=
  have h := C9_update_replaces_record seededStore (patchUser ⟨1, ""⟩) 1 "" rfl rfl (by decide)
  ⟨h.1, h.2.1⟩

/-- C10: for every `int` id that is a key of the map, `DELETE /user?id=<id>` is
answered 204 with an empty body; afterwards `id` is not a key, every other
entry and `NextID` are unchanged; the same `DELETE` served again is answered
404 and leaves the store as it was. -/
theorem C10_delete_removes_one_entry (s : Store) (r : Request) (id : Int)
    (hint : IsInt id) (hex : s.Users id ≠ none)
    (hm : r.method = "DELETE") (hq : queryGet r.query "id" = Itoa id) :
    (UserHandler s r).2 = ⟨204, Body.empty⟩ ∧
      (UserHandler s r).1.Users id = none ∧
      (∀ k, k ≠ id → (UserHandler s r).1.Users k = s.Users k) ∧
      (UserHandler s r).1.NextID = s.NextID ∧
      UserHandler (UserHandler s r).1 r =
        ((UserHandler s r).1, httpError "User not found :<" 404) := by
  have hparse : Atoi (queryGet r.query "id") = some id := by rw [hq]; exact Atoi_Itoa id hint
  have hfirst := UserHandler_delete s r id hm hparse
  cases hu : s.Users id with
  | none => exact absurd hu hex
  | some v =>
    rw [hu] at hfirst
    have hgone : (UserHandler s r).1.Users id = none := by
      rw [hfirst]; simp [mapDelete]
    refine ⟨by rw [hfirst], hgone, ?_, by rw [hfirst], ?_⟩
    · intro k hk
      rw [hfirst]
      simp [mapDelete, hk]
    · rw [UserHandler_delete _ r id hm hparse, hgone]

/-- C10, instance: user 1 of the seeded store is deleted, twice. -/
theorem C10_delete_removes_one_entry_witness :
    (UserHandler seededStore (deleteUser (Itoa 1))).2 = ⟨204, Body.empty⟩ ∧
      (UserHandler (UserHandler seededStore (deleteUser (Itoa 1))).1 (deleteUser (Itoa 1))).2 =
        httpError "User not found :<" 404 :=
  have h := C10_delete_removes_one_entry seededStore (deleteUser (Itoa 1)) 1 (by decide)
    (by decide) rfl rfl
  ⟨h.1, by rw [h.2.2.2.2]⟩

/-- A `GET` returns the store it was given. -/
theorem UserHandler_get_store (s : Store) (r : Request) (hm : r.method = "GET") :
    (UserHandler s r).1 = s := by
  simp only [UserHandler, hm, if_true, handleGetUser]
  split
  · rfl
  · split
    · rfl
    · split <;> rfl

/-- C11: a `GET /user?id=<decimal rendering of id>` for an `int` id that is a key
of the map is answered 200 with the record stored under `id`; and every `GET`
whatsoever leaves the map and `NextID` as they were. -/
theorem C11_get_returns_stored_record (s : Store) (r : Request) (hm : r.method = "GET") :
    (UserHandler s r).1 = s ∧
      ∀ (id : Int) (u : User), IsInt id → s.Users id = some u →
        queryGet r.query "id" = Itoa id → (UserHandler s r).2 = ⟨200, Body.json u⟩ := by
  refine ⟨UserHandler_get_store s r hm, ?_⟩
  intro id u hint hu hq
  have hparse : Atoi (queryGet r.query "id") = some id := by rw [hq]; exact Atoi_Itoa id hint
  rw [UserHandler_get s r id hm hparse, hu]

/-- C11, instance: user 1 of the seeded store is fetched. -/
theorem C11_get_returns_stored_record_witness :
    (UserHandler seededStore (getUser (Itoa 1))).2 = ⟨200, Body.json ⟨1, "Test User1"⟩⟩ :=
  (C11_get_returns_stored_record seededStore (getUser (Itoa 1)) rfl).2 1 ⟨1, "Test User1"⟩
    (by decide) (by decide) rfl

/-- C13: a `POST` whose body decodes to a record with the empty name, whatever
its id, is answered 400 "Name is required" and leaves the store as it was. -/
theorem C13_empty_name_rejected (s : Store) (r : Request) (id : Int)
    (hm : r.method = "POST") (hb : r.body = some ⟨id, ""⟩) :
    UserHandler s r = (s, httpError "Name is required" 400) := by
  have hg : ¬ ("POST" = "GET") := by decide
  simp only [UserHandler, hm, hg, if_false, if_true, handleCreateUser, hb]

/-- C13, instance: the empty name with the id of an existing user. -/
theorem C13_empty_name_rejected_witness :
    seededStore.Users 1 ≠ none ∧
      (UserHandler seededStore (postUser ⟨1, ""⟩)).2 = httpError "Name is required" 400 :=
  ⟨by decide, by rw [C13_empty_name_rejected seededStore (postUser ⟨1, ""⟩) 1 rfl rfl]⟩

/-- C15: a request whose method is none of GET, POST, PATCH, DELETE is answered
405 "Method not allowed" and leaves the store as it was. -/
theorem C15_method_not_allowed (s : Store) (r : Request)
    (h1 : r.method ≠ "GET") (h2 : r.method ≠ "POST") (h3 : r.method ≠ "PATCH")
    (h4 : r.method ≠ "DELETE") :
    UserHandler s r = (s, httpError "Method not allowed" 405) := by
  simp only [UserHandler, h1, h2, h3, h4, if_false]

/-- C15, instance: the `PUT /user` of `TestMethodNotAllowed`. -/
theorem C15_method_not_allowed_witness :
    (UserHandler seededStore ⟨"PUT", "/user", [], none⟩).2 = httpError "Method not allowed" 405 :=
  congrArg Prod.snd (C15_method_not_allowed seededStore ⟨"PUT", "/user", [], none⟩
    (by decide) (by decide) (by decide) (by decide))

/-- C16: on a fresh store (empty map, `NextID = 1`) the scenario is answered 201
with `{1, "Alice"}`, 200 with `{1, "Alice"}`, 200 with `{1, "Alicia"}`, 204 with an
empty body, and 404. -/
theorem C16_scenario :
    responses freshStore scenario =
      [⟨201, Body.json ⟨1, "Alice"⟩⟩, ⟨200, Body.json ⟨1, "Alice"⟩⟩,
        ⟨200, Body.json ⟨1, "Alicia"⟩⟩, ⟨204, Body.empty⟩, httpError "User not found" 404] := by
  decide

/-- C18: two requests that agree on method, query parameters and body are
answered alike and lead to the same store, whatever their paths; a `GET` with
path "/invalid" and no `id` parameter is answered 400. -/
theorem C18_path_ignored (s : Store) (r1 r2 : Request) (hm : r1.method = r2.method)
    (hq : r1.query = r2.query) (hb : r1.body = r2.body) :
    UserHandler s r1 = UserHandler s r2 ∧
      UserHandler s ⟨"GET", "/invalid", [], none⟩ = (s, httpError "Missing user ID" 400) := by
  refine ⟨?_, rfl⟩
  simp only [UserHandler, handleGetUser, handleCreateUser, handleUpdateUser, handleDeleteUser,
    hm, hq, hb]

/-- C18, instance: the same `GET` for user 1 under the paths "/user" and "/invalid". -/
theorem C18_path_ignored_witness :
    UserHandler seededStore ⟨"GET", "/user", [("id", "1")], none⟩ =
      UserHandler seededStore ⟨"GET", "/invalid", [("id", "1")], none⟩ :=
  (C18_path_ignored seededStore ⟨"GET", "/user", [("id", "1")], none⟩
    ⟨"GET", "/invalid", [("id", "1")], none⟩ rfl rfl rfl).1

/-! ## The `id` parameter -/

theorem parseDigits_all : ∀ (ds : List Char) (acc n : Nat),
    parseDigits acc ds = some n → ds.all Char.isDigit = true := by
  intro ds
  induction ds with
  | nil => intro acc n _; rfl
  | cons c cs ih =>
    intro acc n h
    by_cases hc : c.isDigit = true
    · simp only [parseDigits, hc, if_true] at h
      simp only [List.all_cons, hc, Bool.true_and]
      exact ih _ n h
    · simp [parseDigits, hc] at h

/-- What `strconv.Atoi` accepts is written as a decimal integer. -/
theorem Atoi_isDecimalInteger (str : String) (v : Int) (h : Atoi str = some v) :
    isDecimalInteger str = true := by
  have key : ∀ (neg : Bool) (ds : List Char),
      (match (neg, ds) with
        | (_, []) => (none : Option Int)
        | (neg, ds) =>
          match parseDigits 0 ds with
          | none => none
          | some n =>
            let v : Int := if neg then -(n : Int) else (n : Int)
            if minInt ≤ v ∧ v ≤ maxInt then some v else none) = some v →
      (!ds.isEmpty && ds.all Char.isDigit) = true := by
    intro neg ds hk
    cases ds with
    | nil => exact Option.noConfusion hk
    | cons c cs =>
      simp only at hk
      cases hp : parseDigits 0 (c :: cs) with
      | none => rw [hp] at hk; exact Option.noConfusion hk
      | some n =>
        have := parseDigits_all (c :: cs) 0 n hp
        simp only [List.isEmpty_cons, Bool.not_false, Bool.true_and]
        exact this
  unfold Atoi at h
  unfold isDecimalInteger
  cases hd : str.data with
  | nil => rw [hd] at h; exact Option.noConfusion h
  | cons c cs =>
    rw [hd] at h
    by_cases hminus : c = '-'
    · subst hminus
      exact key true cs h
    · by_cases hplus : c = '+'
      · subst hplus
        exact key false cs h
      · have hs : splitSign (c :: cs) = (false, c :: cs) := by
          unfold splitSign
          split
          · rename_i heq; cases heq; exact absurd rfl hminus
          · rename_i heq; cases heq; exact absurd rfl hplus
          · rfl
        rw [hs] at h
        have := key false (c :: cs) h
        split
        · rename_i heq; cases heq; exact absurd rfl hminus
        · rename_i heq; cases heq; exact absurd rfl hplus
        · exact this

theorem queryGet_absent (q : List (String × String)) (key : String)
    (h : ∀ p ∈ q, p.1 ≠ key) : queryGet q key = "" := by
  have hfind : q.find? (fun p => p.1 = key) = none := by
    rw [List.find?_eq_none]
    intro p hp
    simpa using h p hp
  simp only [queryGet, hfind]

/-- What `handleGetUser` and `handleDeleteUser` do without a usable `id`. -/
theorem UserHandler_bad_id (s : Store) (r : Request)
    (hm : r.method = "GET" ∨ r.method = "DELETE") :
    (queryGet r.query "id" = "" → UserHandler s r = (s, httpError "Missing user ID" 400)) ∧
      (queryGet r.query "id" ≠ "" → Atoi (queryGet r.query "id") = none →
        UserHandler s r = (s, httpError "Invalid user ID" 400)) := by
  have h1 : ¬ ("DELETE" = "GET") := by decide
  have h2 : ¬ ("DELETE" = "POST") := by decide
  have h3 : ¬ ("DELETE" = "PATCH") := by decide
  rcases hm with hm | hm
  · constructor
    · intro he
      simp only [UserHandler, hm, if_true, handleGetUser, he]
    · intro hne hnone
      simp only [UserHandler, hm, if_true, handleGetUser, hne, if_false, hnone]
  · constructor
    · intro he
      simp only [UserHandler, hm, h1, h2, h3, if_false, if_true, handleDeleteUser, he]
    · intro hne hnone
      simp only [UserHandler, hm, h1, h2, h3, if_false, if_true, handleDeleteUser, hne, hnone]

/-- C14: for `GET` and for `DELETE`, a request without an `id` parameter, or with
an empty one, is answered 400 "Missing user ID"; a request whose `id` parameter
is not empty and not written as a decimal integer is answered 400 "Invalid user
ID"; the store stays as it was in each case. -/
theorem C14_bad_id_parameter (s : Store) (r : Request)
    (hm : r.method = "GET" ∨ r.method = "DELETE") :
    ((∀ p ∈ r.query, p.1 ≠ "id") → UserHandler s r = (s, httpError "Missing user ID" 400)) ∧
      (queryGet r.query "id" = "" → UserHandler s r = (s, httpError "Missing user ID" 400)) ∧
      (queryGet r.query "id" ≠ "" → isDecimalInteger (queryGet r.query "id") = false →
        UserHandler s r = (s, httpError "Invalid user ID" 400)) := by
  obtain ⟨hmissing, hinvalid⟩ := UserHandler_bad_id s r hm
  refine ⟨fun habs => hmissing (queryGet_absent r.query "id" habs), hmissing, ?_⟩
  intro hne hdec
  apply hinvalid hne
  cases hp : Atoi (queryGet r.query "id") with
  | none => rfl
  | some v =>
    have := Atoi_isDecimalInteger _ v hp
    rw [hdec] at this
    exact Bool.noConfusion this

/-- C14, instance: `DELETE /user` without parameters and `GET /user?id=invalid`. -/
theorem C14_bad_id_parameter_witness :
    (UserHandler seededStore ⟨"DELETE", "/user", [], none⟩).2 = httpError "Missing user ID" 400 ∧
      (UserHandler seededStore (getUser "invalid")).2 = httpError "Invalid user ID" 400 :=
  ⟨congrArg Prod.snd
      ((C14_bad_id_parameter seededStore ⟨"DELETE", "/user", [], none⟩ (Or.inr rfl)).1
        (by decide)),
    congrArg Prod.snd
      ((C14_bad_id_parameter seededStore (getUser "invalid") (Or.inl rfl)).2.2
        (by decide) (by decide))⟩

/-! ## Error responses and the store -/

theorem reachesIncrement_iff (r : Request) :
    reachesIncrement r = true ↔
      r.method = "POST" ∧ ∃ name, name ≠ "" ∧ r.body = some ⟨0, name⟩ := by
  unfold reachesIncrement
  cases hb : r.body with
  | none => simp
  | some u =>
    obtain ⟨id, name⟩ := u
    simp only [decide_eq_true_eq, Option.some.injEq, User.mk.injEq]
    constructor
    · rintro ⟨hm, hn, h0⟩
      exact ⟨hm, name, hn, h0, rfl⟩
    · rintro ⟨hm, n, hn, h0, hname⟩
      exact ⟨hm, by rw [hname]; exact hn, h0⟩

/-- A request answered with an error status leaves the map as it was. -/
theorem UserHandler_error_Users (s : Store) (r : Request)
    (h200 : (UserHandler s r).2.status ≠ 200) (h201 : (UserHandler s r).2.status ≠ 201)
    (h204 : (UserHandler s r).2.status ≠ 204) :
    (UserHandler s r).1.Users = s.Users := by
  by_cases hget : r.method = "GET"
  · rw [UserHandler_get_store s r hget]
  · by_cases hpost : r.method = "POST"
    · have hg : ¬ ("POST" = "GET") := by decide
      cases hb : r.body with
      | none => simp only [UserHandler, hpost, hg, if_false, if_true, handleCreateUser, hb]
      | some u =>
        by_cases hn : u.Name = ""
        · simp only [UserHandler, hpost, hg, if_false, if_true, handleCreateUser, hb, hn]
        · have hp := UserHandler_post s r u hpost hb hn
          by_cases h0 : u.ID = 0
          · simp only [h0, if_true] at hp
            cases hu : s.Users s.NextID with
            | some w => rw [hu] at hp; rw [hp]
            | none => rw [hu] at hp; rw [hp] at h201; exact absurd rfl h201
          · simp only [h0, if_false] at hp
            cases hu : s.Users u.ID with
            | some w => rw [hu] at hp; rw [hp]
            | none => rw [hu] at hp; rw [hp] at h201; exact absurd rfl h201
    · by_cases hpatch : r.method = "PATCH"
      · cases hb : r.body with
        | none =>
          have h1 : ¬ ("PATCH" = "GET") := by decide
          have h2 : ¬ ("PATCH" = "POST") := by decide
          simp only [UserHandler, hpatch, h1, h2, if_false, if_true, handleUpdateUser, hb]
        | some u =>
          have hp := UserHandler_patch s r u hpatch hb
          cases hu : s.Users u.ID with
          | none => rw [hu] at hp; rw [hp]
          | some w => rw [hu] at hp; rw [hp] at h200; exact absurd rfl h200
      · by_cases hdel : r.method = "DELETE"
        · by_cases he : queryGet r.query "id" = ""
          · rw [(UserHandler_bad_id s r (Or.inr hdel)).1 he]
          · cases ha : Atoi (queryGet r.query "id") with
            | none => rw [(UserHandler_bad_id s r (Or.inr hdel)).2 he ha]
            | some id =>
              have hp := UserHandler_delete s r id hdel ha
              cases hu : s.Users id with
              | none => rw [hu] at hp; rw [hp]
              | some w => rw [hu] at hp; rw [hp] at h204; exact absurd rfl h204
        · simp only [UserHandler, hget, hpost, hpatch, hdel, if_false]

theorem wrapInt_succ_ne (n : Int) : wrapInt (n + 1) ≠ n := by
  unfold wrapInt
  omega

/-- C19, counterexample: the largest `int` is a key and the value of `NextID`; the
auto-assign create of "Alice" is answered 409 and `NextID` becomes `minInt`,
which is not the old value advanced by one. -/
theorem C19_counterexample :
    (UserHandler storeFullAtMaxInt (postUser ⟨0, "Alice"⟩)).2 =
        httpError "User already exists" 409 ∧
      storeFullAtMaxInt.Users storeFullAtMaxInt.NextID ≠ none ∧
      (UserHandler storeFullAtMaxInt (postUser ⟨0, "Alice"⟩)).1.NextID = minInt ∧
      (UserHandler storeFullAtMaxInt (postUser ⟨0, "Alice"⟩)).1.NextID ≠
        storeFullAtMaxInt.NextID + 1 := by
  decide

/-- C19, amended: a request answered 400, 404, 405 or 409 leaves the map as it
was. It leaves `NextID` as it was too, except for a `POST` with id 0 and a
non-empty name served while `NextID` is a key of the map: that request is
answered 409 and `NextID` has gone through one `NextID++`, to the old value plus
one when the old value is an `int` below `maxInt`, with wrap-around otherwise. -/
theorem C19_error_responses_and_store (s : Store) (r : Request)
    (herr : (UserHandler s r).2.status = 400 ∨ (UserHandler s r).2.status = 404 ∨
      (UserHandler s r).2.status = 405 ∨ (UserHandler s r).2.status = 409) :
    (UserHandler s r).1.Users = s.Users ∧
      ((r.method = "POST" ∧ (∃ name, name ≠ "" ∧ r.body = some ⟨0, name⟩) ∧
          s.Users s.NextID ≠ none) →
        (UserHandler s r).2.status = 409 ∧
          (UserHandler s r).1.NextID = wrapInt (s.NextID + 1) ∧
          (UserHandler s r).1.NextID ≠ s.NextID ∧
          (IsInt s.NextID → s.NextID < maxInt → (UserHandler s r).1.NextID = s.NextID + 1)) ∧
      (¬ (r.method = "POST" ∧ (∃ name, name ≠ "" ∧ r.body = some ⟨0, name⟩) ∧
          s.Users s.NextID ≠ none) →
        (UserHandler s r).1.NextID = s.NextID) := by
  have hnext := UserHandler_NextID s r
  refine ⟨?_, ?_, ?_⟩
  · apply UserHandler_error_Users <;> omega
  · rintro ⟨hm, ⟨name, hn, hb⟩, hkey⟩
    have hinc : reachesIncrement r = true := (reachesIncrement_iff r).mpr ⟨hm, name, hn, hb⟩
    rw [hinc, if_pos rfl] at hnext
    have hp := UserHandler_post s r ⟨0, name⟩ hm hb hn
    simp only [if_true] at hp
    cases hu : s.Users s.NextID with
    | none => exact absurd hu hkey
    | some w =>
      rw [hu] at hp
      refine ⟨by rw [hp]; rfl, hnext, ?_, ?_⟩
      · rw [hnext]; exact wrapInt_succ_ne _
      · intro hint hlt
        rw [hnext]
        exact wrapInt_of_isInt _ ⟨by have := hint.1; omega, by omega⟩
  · intro hnot
    by_cases hinc : reachesIncrement r = true
    · exfalso
      obtain ⟨hm, name, hn, hb⟩ := (reachesIncrement_iff r).mp hinc
      have hp := UserHandler_post s r ⟨0, name⟩ hm hb hn
      simp only [if_true] at hp
      cases hu : s.Users s.NextID with
      | none =>
        rw [hu] at hp
        rw [hp] at herr
        simp at herr
      | some w =>
        exact hnot ⟨hm, ⟨name, hn, hb⟩, by rw [hu]; exact Option.noConfusion⟩
    · rw [hnext, if_neg hinc]

/-- C19, instance: key 2 is taken while `NextID` is 2; the auto-assign create is
answered 409, the map is as before and `NextID` is 3. -/
theorem C19_error_responses_and_store_witness :
    (UserHandler storeWith2 (postUser ⟨0, "Alice"⟩)).2.status = 409 ∧
      (UserHandler storeWith2 (postUser ⟨0, "Alice"⟩)).1.Users = storeWith2.Users ∧
      (UserHandler storeWith2 (postUser ⟨0, "Alice"⟩)).1.NextID = 3 :=
  have h := C19_error_responses_and_store storeWith2 (postUser ⟨0, "Alice"⟩)
    (Or.inr (Or.inr (Or.inr (by decide))))
  have hcase := h.2.1 ⟨rfl, ⟨"Alice", by decide, rfl⟩, by decide⟩
  ⟨hcase.1, h.1, hcase.2.2.2 (by decide) (by decide)⟩

/-! ## The key 0 -/

/-- A key that is absent stays absent unless the request is a `POST` whose
resulting id is that key. -/
theorem UserHandler_key_absent (s : Store) (r : Request) (k : Int) (habs : s.Users k = none)
    (hpost : r.method = "POST" → ∀ u, r.body = some u →
      (if u.ID = 0 then s.NextID else u.ID) ≠ k) :
    (UserHandler s r).1.Users k = none := by
  by_cases hget : r.method = "GET"
  · rw [UserHandler_get_store s r hget]; exact habs
  · by_cases hp : r.method = "POST"
    · have hg : ¬ ("POST" = "GET") := by decide
      cases hb : r.body with
      | none =>
        simp only [UserHandler, hp, hg, if_false, if_true, handleCreateUser, hb]
        exact habs
      | some u =>
        by_cases hn : u.Name = ""
        · simp only [UserHandler, hp, hg, if_false, if_true, handleCreateUser, hb, hn]
          exact habs
        · have hres := hpost hp u hb
          rw [UserHandler_post s r u hp hb hn]
          by_cases h0 : u.ID = 0
          · simp only [h0, if_true] at hres ⊢
            cases hu : s.Users s.NextID with
            | some w => exact habs
            | none =>
              have hk : ¬ (k = s.NextID) := fun h => hres h.symm
              simp [mapSet, hk, habs]
          · simp only [h0, if_false] at hres ⊢
            cases hu : s.Users u.ID with
            | some w => exact habs
            | none =>
              have hk : ¬ (k = u.ID) := fun h => hres h.symm
              simp [mapSet, hk, habs]
    · by_cases hpatch : r.method = "PATCH"
      · cases hb : r.body with
        | none =>
          have h1 : ¬ ("PATCH" = "GET") := by decide
          have h2 : ¬ ("PATCH" = "POST") := by decide
          simp only [UserHandler, hpatch, h1, h2, if_false, if_true, handleUpdateUser, hb]
          exact habs
        | some u =>
          rw [UserHandler_patch s r u hpatch hb]
          cases hu : s.Users u.ID with
          | none => exact habs
          | some w =>
            have hk : ¬ (k = u.ID) := by
              intro h
              rw [← h, habs] at hu
              exact Option.noConfusion hu
            simp [mapSet, hk, habs]
      · by_cases hdel : r.method = "DELETE"
        · by_cases he : queryGet r.query "id" = ""
          · rw [(UserHandler_bad_id s r (Or.inr hdel)).1 he]; exact habs
          · cases ha : Atoi (queryGet r.query "id") with
            | none => rw [(UserHandler_bad_id s r (Or.inr hdel)).2 he ha]; exact habs
            | some id =>
              rw [UserHandler_delete s r id hdel ha]
              cases hu : s.Users id with
              | none => exact habs
              | some w =>
                simp only [mapDelete]
                split
                · rfl
                · exact habs
        · simp only [UserHandler, hget, hp, hpatch, hdel, if_false]
          exact habs

/-- Serving an overflow-free run from a store without the key 0 and with a
positive counter ends in such a store. -/
theorem zero_absent_serve : ∀ (reqs : List Request) (s : Store),
    s.Users 0 = none → 1 ≤ s.NextID → overflowFree s reqs = true →
      (serve s reqs).Users 0 = none ∧ 1 ≤ (serve s reqs).NextID := by
  intro reqs
  induction reqs with
  | nil => intro s h0 h1 _; exact ⟨h0, h1⟩
  | cons r rs ih =>
    intro s h0 h1 hof
    simp only [overflowFree, Bool.and_eq_true, Bool.or_eq_true, Bool.not_eq_true',
      decide_eq_true_eq] at hof
    obtain ⟨hstep, hrest⟩ := hof
    have hzero : (UserHandler s r).1.Users 0 = none := by
      apply UserHandler_key_absent s r 0 h0
      intro _ u _
      by_cases hu : u.ID = 0
      · simp only [hu, if_true]; omega
      · simp only [hu, if_false]; exact hu
    have hpos : 1 ≤ (UserHandler s r).1.NextID := by
      rw [UserHandler_NextID]
      rcases hstep with hno | hint
      · simp only [hno, Bool.false_eq_true, if_false]; exact h1
      · rw [wrapInt_of_isInt _ hint]
        split <;> omega
    exact ih _ hzero hpos hrest

/-- C20: from a store in which 0 is not a key and `NextID` is at least 1, after
every run of requests on which no `NextID++` overflows, 0 is still not a key
and `NextID` is still at least 1; so a `PATCH` whose body has id 0 (given or
omitted) is answered 404 there. -/
theorem C20_zero_never_stored (s : Store) (reqs : List Request)
    (h0 : s.Users 0 = none) (h1 : 1 ≤ s.NextID) (hof : overflowFree s reqs = true) :
    (serve s reqs).Users 0 = none ∧ 1 ≤ (serve s reqs).NextID ∧
      ∀ (r : Request) (name : String), r.method = "PATCH" → r.body = some ⟨0, name⟩ →
        UserHandler (serve s reqs) r = (serve s reqs, httpError "User not found" 404) := by
  obtain ⟨hz, hp⟩ := zero_absent_serve reqs s h0 h1 hof
  refine ⟨hz, hp, ?_⟩
  intro r name hm hb
  rw [UserHandler_patch _ r ⟨0, name⟩ hm hb]
  simp only [hz]

/-- C20, instance: after the end-to-end scenario on the seeded store, a `PATCH`
with id 0 is answered 404. -/
theorem C20_zero_never_stored_witness :
    (serve seededStore scenario).Users 0 = none ∧
      (UserHandler (serve seededStore scenario) (patchUser ⟨0, "Zero"⟩)).2 =
        httpError "User not found" 404 :=
  have h := C20_zero_never_stored seededStore scenario (by decide) (by decide) (by decide)
  ⟨h.1, congrArg Prod.snd (h.2.2 (patchUser ⟨0, "Zero"⟩) "Zero" rfl rfl)⟩

/-! ## Consecutive auto-assign creates -/

theorem autoCreate_step (s : Store) (n : String) (hn : n ≠ "")
    (hfree : s.Users s.NextID = none) :
    UserHandler s (postUser ⟨0, n⟩) =
      ({ Users := mapSet s.Users s.NextID ⟨s.NextID, n⟩, NextID := wrapInt (s.NextID + 1) },
        ⟨201, Body.json ⟨s.NextID, n⟩⟩) := by
  have h := UserHandler_post s (postUser ⟨0, n⟩) ⟨0, n⟩ rfl rfl hn
  simp only [if_true, hfree] at h
  exact h

/-- Serving one auto-assign create per name from a store whose keys all lie
below the counter, as long as every id handed out is an `int`. -/
theorem autoCreates_run : ∀ (names : List String) (s : Store),
    (∀ n ∈ names, n ≠ "") → IsInt s.NextID → s.NextID + names.length ≤ maxInt + 1 →
    (∀ j, s.NextID ≤ j → s.Users j = none) →
      (∀ i : Nat, (responses s (autoCreates names))[i]? =
        (names[i]?).map (fun n => (⟨201, Body.json ⟨s.NextID + i, n⟩⟩ : Response))) ∧
      (∀ j : Int, (serve s (autoCreates names)).Users j =
        if s.NextID ≤ j ∧ j < s.NextID + names.length then
          (names[(j - s.NextID).toNat]?).map (fun n => (⟨j, n⟩ : User))
        else s.Users j) ∧
      (serve s (autoCreates names)).NextID = wrapInt (s.NextID + names.length) := by
  intro names
  induction names with
  | nil =>
    intro s _ hint _ _
    refine ⟨fun i => by simp [autoCreates, responses], fun j => ?_, ?_⟩
    · have hno : ¬ (s.NextID ≤ j ∧ j < s.NextID + ((([] : List String).length : Nat) : Int)) := by
        simp only [List.length_nil, Nat.cast_zero, add_zero]
        omega
      rw [if_neg hno]
      rfl
    · simp only [autoCreates, List.map_nil, serve, List.length_nil, Nat.cast_zero, add_zero]
      exact (wrapInt_of_isInt _ hint).symm
  | cons n ns ih =>
    intro s hne hint hfit hfree
    have hn : n ≠ "" := hne n (List.mem_cons_self n ns)
    have hstep := autoCreate_step s n hn (hfree _ le_rfl)
    have hcons : autoCreates (n :: ns) = postUser ⟨0, n⟩ :: autoCreates ns := rfl
    rw [hcons]
    simp only [responses, serve, hstep]
    cases ns with
    | nil =>
      refine ⟨fun i => ?_, fun j => ?_, ?_⟩
      · cases i with
        | zero => simp [autoCreates, responses]
        | succ i => simp [autoCreates, responses]
      · simp only [autoCreates, List.map_nil, serve, List.length_singleton, Nat.cast_one, mapSet]
        by_cases hj : j = s.NextID
        · subst hj
          simp
        · have hno : ¬ (s.NextID ≤ j ∧ j < s.NextID + 1) := by omega
          simp only [hj, if_false, hno]
      · simp only [autoCreates, List.map_nil, serve, List.length_singleton, Nat.cast_one]
    | cons m ms =>
      have hlen : (((n :: m :: ms).length : Nat) : Int) = ((m :: ms).length : Int) + 1 := by
        simp only [List.length_cons]; push_cast; ring
      have hlen1 : (1 : Int) ≤ ((m :: ms).length : Int) := by
        simp only [List.length_cons]; push_cast; omega
      rw [hlen] at hfit
      generalize hL : (((m :: ms).length : Nat) : Int) = L at hfit hlen hlen1
      have hint1 : IsInt (s.NextID + 1) := ⟨by have := hint.1; omega, by omega⟩
      have hw : wrapInt (s.NextID + 1) = s.NextID + 1 := wrapInt_of_isInt _ hint1
      rw [hw]
      obtain ⟨hr, hu, hN⟩ := ih
        { Users := mapSet s.Users s.NextID ⟨s.NextID, n⟩, NextID := s.NextID + 1 }
        (fun x hx => hne x (List.mem_cons_of_mem n hx)) hint1
        (by show s.NextID + 1 + (((m :: ms).length : Nat) : Int) ≤ maxInt + 1; rw [hL]; omega)
        (by
          intro j hj
          have hj1 : s.NextID + 1 ≤ j := hj
          have hne1 : ¬ (j = s.NextID) := by omega
          show mapSet s.Users s.NextID ⟨s.NextID, n⟩ j = none
          simp only [mapSet, hne1, if_false]
          exact hfree j (by omega))
      refine ⟨fun i => ?_, fun j => ?_, ?_⟩
      · cases i with
        | zero => simp
        | succ i =>
          simp only [List.getElem?_cons_succ]
          rw [hr i]
          congr 1
          funext x
          simp only [Response.mk.injEq, Body.json.injEq, User.mk.injEq, and_true, true_and]
          push_cast
          ring
      · rw [hu j, hlen]
        simp only [mapSet, hL]
        by_cases hj : j = s.NextID
        · rw [hj]
          have hno : ¬ (s.NextID + 1 ≤ s.NextID ∧ s.NextID < s.NextID + 1 + L) := by omega
          have hyes : s.NextID ≤ s.NextID ∧ s.NextID < s.NextID + (L + 1) := by omega
          simp only [hno, hyes, if_false, if_true, sub_self, Int.toNat_zero,
            List.getElem?_cons_zero, Option.map_some', and_self]
        · by_cases hin : s.NextID + 1 ≤ j ∧ j < s.NextID + 1 + L
          · have hyes : s.NextID ≤ j ∧ j < s.NextID + (L + 1) := by omega
            have hidx : (j - s.NextID).toNat = (j - (s.NextID + 1)).toNat + 1 := by omega
            simp only [hin, hyes, and_self, if_true, hidx, List.getElem?_cons_succ]
          · have hno : ¬ (s.NextID ≤ j ∧ j < s.NextID + (L + 1)) := by omega
            simp only [hin, hno, if_false, hj]
      · rw [hN, hlen]
        show wrapInt (s.NextID + 1 + (((m :: ms).length : Nat) : Int)) = wrapInt (s.NextID + (L + 1))
        rw [hL]
        congr 1
        ring

theorem responses_length : ∀ (reqs : List Request) (s : Store),
    (responses s reqs).length = reqs.length := by
  intro reqs
  induction reqs with
  | nil => intro s; rfl
  | cons r rs ih => intro s; simp only [responses, List.length_cons, ih]

/-- C12, counterexample: one auto-assign create on an empty map with the
counter at the largest `int` is answered 201 with that id, and the counter
becomes `minInt`, not `maxInt + 1`. -/
theorem C12_counterexample :
    responses (emptyStore maxInt) (autoCreates ["Alice"]) =
        [⟨201, Body.json ⟨maxInt, "Alice"⟩⟩] ∧
      (serve (emptyStore maxInt) (autoCreates ["Alice"])).NextID = minInt ∧
      (serve (emptyStore maxInt) (autoCreates ["Alice"])).NextID ≠
        maxInt + ((["Alice"].length : Nat) : Int) := by
  decide

/-- C12, amended: for every `int` k and every list of N non-empty names such that
the ids k, ..., k+N-1 are values of `int`, N auto-assign creates served in
order on an empty map with `NextID = k` give N responses, the i-th being 201
with the record `{k+i, i-th name}`; the final map holds exactly these records;
`NextID` ends at k+N when that is a value of `int`, and at `minInt` when k+N-1
is the largest `int`. -/
theorem C12_consecutive_auto_creates (k : Int) (names : List String) (hk : IsInt k)
    (hfit : k + names.length ≤ maxInt + 1) (hne : ∀ n ∈ names, n ≠ "") :
    (responses (emptyStore k) (autoCreates names)).length = names.length ∧
      (∀ i : Nat, (responses (emptyStore k) (autoCreates names))[i]? =
        (names[i]?).map (fun n => (⟨201, Body.json ⟨k + i, n⟩⟩ : Response))) ∧
      (∀ j : Int, (serve (emptyStore k) (autoCreates names)).Users j =
        if k ≤ j ∧ j < k + names.length then
          (names[(j - k).toNat]?).map (fun n => (⟨j, n⟩ : User))
        else none) ∧
      (k + names.length ≤ maxInt →
        (serve (emptyStore k) (autoCreates names)).NextID = k + names.length) ∧
      (k + names.length = maxInt + 1 →
        (serve (emptyStore k) (autoCreates names)).NextID = minInt) := by
  obtain ⟨hr, hu, hN⟩ := autoCreates_run names (emptyStore k) hne hk hfit (fun _ _ => rfl)
  refine ⟨?_, hr, hu, ?_, ?_⟩
  · rw [responses_length]
    simp only [autoCreates, List.length_map]
  · intro hle
    rw [hN]
    exact wrapInt_of_isInt _ ⟨by have := hk.1; show minInt ≤ k + _; omega, hle⟩
  · intro heq
    rw [hN]
    show wrapInt (k + names.length) = minInt
    rw [heq]
    decide

/-- C12, instance: two auto-assign creates on an empty map with the counter at 5
are answered with the ids 5 and 6, and the counter ends at 7. -/
theorem C12_consecutive_auto_creates_witness :
    responses (emptyStore 5) (autoCreates ["Ann", "Ben"]) =
        [⟨201, Body.json ⟨5, "Ann"⟩⟩, ⟨201, Body.json ⟨6, "Ben"⟩⟩] ∧
      (serve (emptyStore 5) (autoCreates ["Ann", "Ben"])).NextID =
        5 + ((["Ann", "Ben"].length : Nat) : Int) :=
  ⟨by decide,
    (C12_consecutive_auto_creates 5 ["Ann", "Ben"] (by decide) (by decide)
      (by decide)).2.2.2.1 (by decide)⟩

end httpserver
